import Mathlib

/-!
Verification development for the roasted-chessnuts backend
(`src/backend/main.py`).

Strings are modelled as `List Char`.  The two endpoints of the backend are
embedded as pure functions:

* `generate` models the SSE generator of `process_move_stream` (lines
  256-311): the token stream is a list of delivered fragments together with
  an optional failure message (the exception raised by the token source
  after the listed fragments were delivered; `none` means normal
  end-of-stream).
* `process_move` models the non-streaming `/api/move` handler's
  segmentation and TTS-dispatch logic (lines 76-181); the synthesis
  collaborator is abstracted as a per-index outcome (success with a URL, or
  an exception).
-/

namespace Chessnuts

/-- The whitespace characters removed by Python's `str.strip()` (ASCII core). -/
def isPySpace (c : Char) : Bool :=
  c == ' ' || c == '\t' || c == '\n' || c == '\r' || c == '\x0b' || c == '\x0c'

/-- The sentence terminator characters `.` `!` `?` (main.py lines 113 and 288). -/
def isTerminator (c : Char) : Bool :=
  c == '.' || c == '!' || c == '?'

/-- Python `s.strip()`: drop leading and trailing whitespace. -/
def pyStrip (l : List Char) : List Char :=
  ((l.dropWhile isPySpace).reverse.dropWhile isPySpace).reverse

/-- State of the streaming generator loop: `current_sentence`,
`full_commentary` and `sentence_count` (main.py lines 262-264). -/
structure GenState where
  cur : List Char
  full : List Char
  count : Nat
deriving Repr, DecidableEq

/-- An outbound server-sent event of `process_move_stream`
(main.py lines 292, 305, 310). -/
inductive Event where
  | sentence (index : Nat) (text : List Char)
  | complete (full : List Char)
  | error (msg : List Char)
deriving Repr, DecidableEq

def initState : GenState := ⟨[], [], 0⟩

/-- One iteration of the `async for chunk in response` body of
`process_move_stream.generate` (main.py lines 280-296): skip falsy chunks,
append the text to `current_sentence` and `full_commentary`, then scan the
new text character by character; on the first terminator found, emit the
whole stripped buffer as a sentence event (if non-empty) and reset the
buffer, then `break` out of the scan. -/
def processFragment (st : GenState) (text : List Char) : GenState × List Event :=
  if text.isEmpty then (st, [])
  else
    let cur := st.cur ++ text
    let full := st.full ++ text
    if text.any isTerminator then
      let s := pyStrip cur
      if s.isEmpty then ({ cur := cur, full := full, count := st.count }, [])
      else ({ cur := [], full := full, count := st.count + 1 },
            [Event.sentence st.count s])
    else ({ cur := cur, full := full, count := st.count }, [])

/-- Run the chunk-consumption loop over a list of delivered fragments,
collecting the emitted sentence events. -/
def runFragments (st : GenState) : List (List Char) → GenState × List Event
  | [] => (st, [])
  | f :: fs =>
    let r1 := processFragment st f
    let r2 := runFragments r1.1 fs
    (r2.1, r1.2 ++ r2.2)

/-- The whole body of `process_move_stream.generate` (main.py lines
256-311).  `fail = some m` means the token source raised an exception with
message `m` after delivering `frags`; the `except` clause then yields a
single error event.  `fail = none` is normal end-of-stream: the residual
buffer is flushed as a final sentence if non-empty after stripping, and a
complete event with the stripped full commentary closes the stream. -/
def generate (frags : List (List Char)) (fail : Option (List Char)) : List Event :=
  let r := runFragments initState frags
  match fail with
  | some m => r.2 ++ [Event.error m]
  | none =>
    let trailing :=
      if (pyStrip r.1.cur).isEmpty then []
      else [Event.sentence r.1.count (pyStrip r.1.cur)]
    r.2 ++ trailing ++ [Event.complete (pyStrip r.1.full)]

def isSentenceEv : Event → Bool
  | .sentence _ _ => true
  | _ => false

def isCompleteEv : Event → Bool
  | .complete _ => true
  | _ => false

def isErrorEv : Event → Bool
  | .error _ => true
  | _ => false

/-- A terminal event is a `complete` or an `error`. -/
def isTerminalEv (e : Event) : Bool :=
  isCompleteEv e || isErrorEv e

/-- The texts of the sentence events, in emission order. -/
def sentenceTexts (evs : List Event) : List (List Char) :=
  evs.filterMap fun e => match e with
    | .sentence _ t => some t
    | _ => none

/-- The indices of the sentence events, in emission order. -/
def sentenceIndices (evs : List Event) : List Nat :=
  evs.filterMap fun e => match e with
    | .sentence i _ => some i
    | _ => none

/-- One iteration of the chunk loop of the non-streaming `process_move`
handler (main.py lines 105-115): the accumulator is
`(sentences, current_sentence, full_commentary)`.  If the chunk text
contains any terminator, the stripped buffer is appended to `sentences`
unconditionally and the buffer resets. -/
def pmProcessFragment (acc : List (List Char) × List Char × List Char)
    (text : List Char) : List (List Char) × List Char × List Char :=
  if text.isEmpty then acc
  else
    let cur := acc.2.1 ++ text
    let full := acc.2.2 ++ text
    if text.any isTerminator then (acc.1 ++ [pyStrip cur], [], full)
    else (acc.1, cur, full)

/-- The chunk loop of `process_move` run to normal end-of-stream. -/
def pmSegment (frags : List (List Char)) :
    List (List Char) × List Char × List Char :=
  frags.foldl pmProcessFragment ([], [], [])

/-- The sentence list of `process_move` after the loop and the trailing
flush (main.py lines 119-121): the residual buffer is appended as a final
sentence if non-empty after stripping. -/
def pmSentences (frags : List (List Char)) : List (List Char) :=
  let r := pmSegment frags
  if (pyStrip r.2.1).isEmpty then r.1 else r.1 ++ [pyStrip r.2.1]

/-- Behaviour of the synthesis collaborator for one dispatched sentence:
either it eventually provides an audio URL (possibly only a best-effort
reference after the 2-second poll timeout), or some call into it raises an
exception. -/
inductive SynthOutcome where
  | success (url : List Char)
  | raises
deriving Repr, DecidableEq

/-- `generate_tts_for_sentence` (main.py lines 131-158): when the client is
configured, a collaborator exception is caught locally and converted to
`(index, None)`; otherwise the obtained URL is returned with the index.
When the client is unconfigured the function returns `(index, None)`
immediately. -/
def generate_tts_for_sentence (configured : Bool) (outcome : SynthOutcome)
    (index : Nat) : Nat × Option (List Char) :=
  if configured then
    match outcome with
    | .success url => (index, some url)
    | .raises => (index, none)
  else (index, none)

/-- The TTS dispatch loop of `process_move` (main.py lines 161-168): one
task per non-empty sentence, at the sentence's enumeration index; the
gathered results are in task-creation order. -/
def ttsResults (configured : Bool) (outcomes : Nat → SynthOutcome)
    (sentences : List (List Char)) : List (Nat × Option (List Char)) :=
  (sentences.enum.filter fun p => !p.2.isEmpty).map fun p =>
    generate_tts_for_sentence configured (outcomes p.1) p.1

/-- Stable insertion of a result into a list sorted by index, modelling
Python's stable `results.sort(key=lambda x: x[0])` (main.py line 170). -/
def insertByIdx (x : Nat × Option (List Char)) :
    List (Nat × Option (List Char)) → List (Nat × Option (List Char))
  | [] => [x]
  | y :: ys => if x.1 < y.1 then x :: y :: ys else y :: insertByIdx x ys

def sortByIdx (l : List (Nat × Option (List Char))) :
    List (Nat × Option (List Char)) :=
  l.foldl (fun acc x => insertByIdx x acc) []

/-- The audio-field construction of `process_move` (main.py lines 166-180):
sort the results by index, keep the truthy URLs only (Python `if url` drops
both `None` and the empty string), take the first as `audioUrl`, and expose
the list as `audioUrls` only when it has more than one element. -/
def buildAudio (results : List (Nat × Option (List Char))) :
    Option (List Char) × Option (List (List Char)) :=
  let urls := (sortByIdx results).filterMap fun p =>
    match p.2 with
    | some u => if u.isEmpty then none else some u
    | none => none
  (urls.head?, if urls.length > 1 then some urls else none)

/-- The response model of `/api/move` (main.py lines 51-54). -/
structure CommentaryResponse where
  commentary : List Char
  audioUrl : Option (List Char)
  audioUrls : Option (List (List Char))
deriving Repr, DecidableEq

/-- The `/api/move` handler's happy path (main.py lines 102-181): segment
the streamed chunks, dispatch TTS per sentence, and assemble the response
from the stripped full commentary and the audio fields. -/
def process_move (configured : Bool) (outcomes : Nat → SynthOutcome)
    (frags : List (List Char)) : CommentaryResponse :=
  let sentences := pmSentences frags
  let audio := buildAudio (ttsResults configured outcomes sentences)
  { commentary := pyStrip (pmSegment frags).2.2
    audioUrl := audio.1
    audioUrls := audio.2 }

/-- Re-insert the whitespace trimmed from each sentence: interleave a list
of (leading, trailing) whitespace pads with the sentence texts. -/
def padJoin : List (List Char × List Char) → List (List Char) → List Char
  | p :: ps, s :: ss => p.1 ++ s ++ p.2 ++ padJoin ps ss
  | _, _ => []

/-- Total number of terminator characters across a fragment sequence. -/
def countTerminators (frags : List (List Char)) : Nat :=
  (List.flatten frags).countP fun c => isTerminator c

/-- The URLs of the successful synthesis results, in sentence-index order
(what the spec's words call "the index-ordered list of successful URLs"). -/
def successUrls (results : List (Nat × Option (List Char))) : List (List Char) :=
  (sortByIdx results).filterMap Prod.snd

/-! ### Sanity checks on concrete inputs (including the spec's own scenario) -/

example :
    generate ["Nice ".toList, "move".toList, ". ".toList,
              "Truly".toList, " ".toList, "awful. ".toList] none =
      [Event.sentence 0 "Nice move.".toList,
       Event.sentence 1 "Truly awful.".toList,
       Event.complete "Nice move. Truly awful.".toList] := by decide

example :
    generate ["Hi. Bye".toList] none =
      [Event.sentence 0 "Hi. Bye".toList,
       Event.complete "Hi. Bye".toList] := by decide

example : generate [] (some "boom".toList) = [Event.error "boom".toList] := by decide

example :
    generate ["Good.".toList] (some "boom".toList) =
      [Event.sentence 0 "Good.".toList, Event.error "boom".toList] := by decide

/-! ### Basic lemmas about `pyStrip` -/

theorem pyStrip_decomp (l : List Char) :
    ∃ pre post, pre.all isPySpace = true ∧ post.all isPySpace = true ∧
      l = pre ++ pyStrip l ++ post := by
  refine ⟨l.takeWhile isPySpace,
    ((l.dropWhile isPySpace).reverse.takeWhile isPySpace).reverse, ?_, ?_, ?_⟩
  · rw [List.all_eq_true]
    intro x hx
    exact List.mem_takeWhile_imp hx
  · rw [List.all_eq_true]
    intro x hx
    rw [List.mem_reverse] at hx
    exact List.mem_takeWhile_imp hx
  · conv_lhs => rw [← List.takeWhile_append_dropWhile (p := isPySpace) (l := l)]
    rw [List.append_assoc]
    congr 1
    conv_lhs => rw [← List.reverse_reverse (l.dropWhile isPySpace),
      ← List.takeWhile_append_dropWhile (p := isPySpace)
        (l := (l.dropWhile isPySpace).reverse)]
    rw [List.reverse_append]
    rfl

theorem all_space_of_pyStrip_empty {l : List Char}
    (h : (pyStrip l).isEmpty = true) : l.all isPySpace = true := by
  obtain ⟨pre, post, hpre, hpost, hl⟩ := pyStrip_decomp l
  rw [List.isEmpty_iff] at h
  rw [hl, h, List.append_nil]
  rw [List.all_append, hpre, hpost]
  rfl

theorem pyStrip_not_empty_of_mem {l : List Char} {c : Char}
    (hc : c ∈ l) (hns : isPySpace c = false) : (pyStrip l).isEmpty = false := by
  cases h : (pyStrip l).isEmpty with
  | false => rfl
  | true =>
    have hall := all_space_of_pyStrip_empty h
    rw [List.all_eq_true] at hall
    rw [hall c hc] at hns
    exact absurd hns (by simp)

theorem isTerminator_not_space {c : Char} (h : isTerminator c = true) :
    isPySpace c = false := by
  simp only [isTerminator, Bool.or_eq_true, beq_iff_eq] at h
  rcases h with (h | h) | h <;> subst h <;> decide

/-! ### Characterizations of one step of the streaming loop -/

theorem processFragment_empty (st : GenState) {text : List Char}
    (h : text.isEmpty = true) : processFragment st text = (st, []) := by
  unfold processFragment
  rw [h]
  rfl

theorem processFragment_no_term (st : GenState) {text : List Char}
    (h1 : text.isEmpty = false) (h2 : text.any isTerminator = false) :
    processFragment st text =
      ({ cur := st.cur ++ text, full := st.full ++ text, count := st.count },
       []) := by
  unfold processFragment
  rw [h1, h2]
  rfl

theorem processFragment_emit (st : GenState) {text : List Char}
    (h1 : text.isEmpty = false) (h2 : text.any isTerminator = true) :
    processFragment st text =
      ({ cur := [], full := st.full ++ text, count := st.count + 1 },
       [Event.sentence st.count (pyStrip (st.cur ++ text))]) := by
  obtain ⟨c, hcmem, hcterm⟩ := List.any_eq_true.mp h2
  have hcne : (pyStrip (st.cur ++ text)).isEmpty = false :=
    pyStrip_not_empty_of_mem (List.mem_append_right st.cur hcmem)
      (isTerminator_not_space hcterm)
  simp only [processFragment, h1, h2, hcne, Bool.false_eq_true, if_false, if_true]

theorem runFragments_cons (st : GenState) (f : List Char) (fs : List (List Char)) :
    runFragments st (f :: fs) =
      ((runFragments (processFragment st f).1 fs).1,
       (processFragment st f).2 ++ (runFragments (processFragment st f).1 fs).2) :=
  rfl

/-! ### Projections of event lists -/

theorem sentenceTexts_append (a b : List Event) :
    sentenceTexts (a ++ b) = sentenceTexts a ++ sentenceTexts b := by
  simp [sentenceTexts]

theorem sentenceIndices_append (a b : List Event) :
    sentenceIndices (a ++ b) = sentenceIndices a ++ sentenceIndices b := by
  simp [sentenceIndices]

theorem sentenceTexts_cons_sentence (i : Nat) (t : List Char) (evs : List Event) :
    sentenceTexts (Event.sentence i t :: evs) = t :: sentenceTexts evs := rfl

theorem sentenceIndices_cons_sentence (i : Nat) (t : List Char) (evs : List Event) :
    sentenceIndices (Event.sentence i t :: evs) = i :: sentenceIndices evs := rfl

/-! ### Invariants of the chunk-consumption loop -/

theorem runFragments_sentences_only (frags : List (List Char)) : ∀ st : GenState,
    ∀ e ∈ (runFragments st frags).2, isSentenceEv e = true := by
  induction frags with
  | nil =>
    intro st e he
    simp [runFragments] at he
  | cons f fs ih =>
    intro st e he
    rw [runFragments_cons] at he
    rcases List.mem_append.mp he with he | he
    · cases h1 : f.isEmpty with
      | true =>
        rw [processFragment_empty st h1] at he
        simp at he
      | false =>
        cases h2 : f.any isTerminator with
        | true =>
          rw [processFragment_emit st h1 h2] at he
          simp at he
          subst he
          rfl
        | false =>
          rw [processFragment_no_term st h1 h2] at he
          simp at he
    · exact ih _ e he

theorem runFragments_full (frags : List (List Char)) : ∀ st : GenState,
    (runFragments st frags).1.full = st.full ++ List.flatten frags := by
  induction frags with
  | nil =>
    intro st
    simp [runFragments]
  | cons f fs ih =>
    intro st
    rw [runFragments_cons, List.flatten_cons]
    cases h1 : f.isEmpty with
    | true =>
      have hf : f = [] := List.isEmpty_iff.mp h1
      rw [processFragment_empty st h1, ih st, hf]
      simp
    | false =>
      cases h2 : f.any isTerminator with
      | true =>
        rw [processFragment_emit st h1 h2]
        dsimp only
        rw [ih _]
        simp
      | false =>
        rw [processFragment_no_term st h1 h2]
        dsimp only
        rw [ih _]
        simp

theorem runFragments_indices (frags : List (List Char)) : ∀ st : GenState,
    ∃ k, (runFragments st frags).1.count = st.count + k ∧
      sentenceIndices (runFragments st frags).2 = List.range' st.count k := by
  induction frags with
  | nil =>
    intro st
    exact ⟨0, rfl, rfl⟩
  | cons f fs ih =>
    intro st
    rw [runFragments_cons]
    cases h1 : f.isEmpty with
    | true =>
      rw [processFragment_empty st h1]
      obtain ⟨k, hc, hi⟩ := ih st
      exact ⟨k, hc, by simpa using hi⟩
    | false =>
      cases h2 : f.any isTerminator with
      | true =>
        rw [processFragment_emit st h1 h2]
        dsimp only
        obtain ⟨k, hc, hi⟩ :=
          ih { cur := [], full := st.full ++ f, count := st.count + 1 }
        dsimp only at hc hi
        refine ⟨k + 1, ?_, ?_⟩
        · rw [hc]
          omega
        · rw [sentenceIndices_append, sentenceIndices_cons_sentence, hi]
          have := List.range'_succ st.count k 1
          simpa using this.symm
      | false =>
        rw [processFragment_no_term st h1 h2]
        dsimp only
        obtain ⟨k, hc, hi⟩ :=
          ih { cur := st.cur ++ f, full := st.full ++ f, count := st.count }
        dsimp only at hc hi
        exact ⟨k, hc, hi⟩

theorem runFragments_count_terms (frags : List (List Char)) : ∀ st : GenState,
    (runFragments st frags).1.count =
      st.count + frags.countP (fun f => !f.isEmpty && f.any isTerminator) := by
  induction frags with
  | nil =>
    intro st
    simp [runFragments]
  | cons f fs ih =>
    intro st
    rw [runFragments_cons, List.countP_cons]
    cases h1 : f.isEmpty with
    | true =>
      rw [processFragment_empty st h1, ih st]
      simp [h1]
    | false =>
      cases h2 : f.any isTerminator with
      | true =>
        rw [processFragment_emit st h1 h2]
        dsimp only
        rw [ih _]
        simp only [h1, h2]
        simp
        omega
      | false =>
        rw [processFragment_no_term st h1 h2]
        dsimp only
        rw [ih _]
        simp [h1, h2]

theorem runFragments_conservation (frags : List (List Char)) : ∀ st : GenState,
    ∃ pads : List (List Char × List Char),
      pads.length = (sentenceTexts (runFragments st frags).2).length ∧
      (∀ p ∈ pads, p.1.all isPySpace = true ∧ p.2.all isPySpace = true) ∧
      st.cur ++ List.flatten frags =
        padJoin pads (sentenceTexts (runFragments st frags).2) ++
          (runFragments st frags).1.cur := by
  induction frags with
  | nil =>
    intro st
    exact ⟨[], rfl, by simp, by simp [runFragments, sentenceTexts, padJoin]⟩
  | cons f fs ih =>
    intro st
    rw [runFragments_cons, List.flatten_cons]
    cases h1 : f.isEmpty with
    | true =>
      have hf : f = [] := List.isEmpty_iff.mp h1
      rw [processFragment_empty st h1]
      subst hf
      simpa using ih st
    | false =>
      cases h2 : f.any isTerminator with
      | false =>
        rw [processFragment_no_term st h1 h2]
        dsimp only
        obtain ⟨pads, hlen, hws, heq⟩ :=
          ih { cur := st.cur ++ f, full := st.full ++ f, count := st.count }
        dsimp only at heq
        refine ⟨pads, hlen, hws, ?_⟩
        rw [← List.append_assoc]
        exact heq
      | true =>
        rw [processFragment_emit st h1 h2]
        dsimp only
        obtain ⟨pads, hlen, hws, heq⟩ :=
          ih { cur := [], full := st.full ++ f, count := st.count + 1 }
        dsimp only at heq
        rw [List.nil_append] at heq
        obtain ⟨pre, post, hpre, hpost, hdecomp⟩ := pyStrip_decomp (st.cur ++ f)
        refine ⟨(pre, post) :: pads, ?_, ?_, ?_⟩
        · rw [sentenceTexts_append, sentenceTexts_cons_sentence]
          simp [hlen, sentenceTexts]
        · intro p hp
          rcases List.mem_cons.mp hp with h | h
          · rw [h]
            exact ⟨hpre, hpost⟩
          · exact hws p h
        · rw [sentenceTexts_append, sentenceTexts_cons_sentence]
          have hnil : sentenceTexts ([] : List Event) = [] := rfl
          rw [hnil, List.cons_append, List.nil_append]
          simp only [padJoin]
          rw [← List.append_assoc st.cur f]
          conv_lhs => rw [hdecomp]
          rw [heq]
          simp [List.append_assoc]

/-! ### Facts about the full event stream of `generate` -/

theorem generate_some_eq (frags : List (List Char)) (m : List Char) :
    generate frags (some m) = (runFragments initState frags).2 ++ [Event.error m] :=
  rfl

theorem generate_none_eq (frags : List (List Char)) :
    generate frags none =
      (runFragments initState frags).2 ++
        (if (pyStrip (runFragments initState frags).1.cur).isEmpty then []
         else [Event.sentence (runFragments initState frags).1.count
                (pyStrip (runFragments initState frags).1.cur)]) ++
        [Event.complete (pyStrip (runFragments initState frags).1.full)] :=
  rfl

theorem length_texts_eq_length_indices (evs : List Event) :
    (sentenceTexts evs).length = (sentenceIndices evs).length := by
  induction evs with
  | nil => rfl
  | cons e es ih =>
    cases e with
    | sentence i t =>
      rw [sentenceTexts_cons_sentence, sentenceIndices_cons_sentence]
      simp [ih]
    | complete f => exact ih
    | error m => exact ih

theorem generate_indices (frags : List (List Char)) (fail : Option (List Char)) :
    sentenceIndices (generate frags fail) =
      List.range (sentenceIndices (generate frags fail)).length := by
  obtain ⟨k, hc, hi⟩ := runFragments_indices frags initState
  have hz : initState.count = 0 := rfl
  rw [hz] at hi hc
  rw [Nat.zero_add] at hc
  have hnil : sentenceIndices ([] : List Event) = [] := rfl
  cases fail with
  | some m =>
    rw [generate_some_eq, sentenceIndices_append]
    have herr : sentenceIndices [Event.error m] = [] := rfl
    rw [herr, List.append_nil, hi]
    simp [List.range_eq_range']
  | none =>
    rw [generate_none_eq, sentenceIndices_append, sentenceIndices_append]
    have hcmpl : sentenceIndices
        [Event.complete (pyStrip (runFragments initState frags).1.full)] = [] := rfl
    rw [hcmpl, List.append_nil, hi]
    cases ht : (pyStrip (runFragments initState frags).1.cur).isEmpty with
    | true =>
      simp only [ht, if_true]
      rw [hnil, List.append_nil]
      simp [List.range_eq_range']
    | false =>
      simp only [ht, Bool.false_eq_true, if_false]
      have hsi : sentenceIndices
          [Event.sentence (runFragments initState frags).1.count
            (pyStrip (runFragments initState frags).1.cur)] =
          [(runFragments initState frags).1.count] := rfl
      rw [hsi, hc]
      have hone : [k] = List.range' (0 + k) 1 := by simp [List.range']
      rw [hone, List.range'_append_1]
      simp [List.range_eq_range', Nat.add_comm]

theorem padJoin_append (ps ps' : List (List Char × List Char)) :
    ∀ ss ss' : List (List Char), ps.length = ss.length →
      padJoin (ps ++ ps') (ss ++ ss') = padJoin ps ss ++ padJoin ps' ss' := by
  induction ps with
  | nil =>
    intro ss ss' h
    cases ss with
    | nil => simp [padJoin]
    | cons s ss => simp at h
  | cons p ps ih =>
    intro ss ss' h
    cases ss with
    | nil => simp at h
    | cons s ss =>
      simp only [List.cons_append, padJoin, List.append_eq]
      rw [ih ss ss' (by simpa using h)]
      simp [List.append_assoc]

/-- Claim C1, counterexample: the single fragment "A. B." contains exactly
two terminator characters and leaves no trailing partial, yet the segmenter
emits only one sentence (the character scan stops at the first terminator of
a fragment), so "at least k sentences for k terminators" fails at k = 2. -/
theorem C1_counterexample :
    countTerminators ["A. B.".toList] = 2 ∧
    (sentenceTexts (generate ["A. B.".toList] none)).length = 1 ∧
    ¬ 2 ≤ (sentenceTexts (generate ["A. B.".toList] none)).length := by
  decide

/-- Claim C1 (amended): the segmenter emits at most one sentence per
fragment: exactly one for each non-empty fragment containing at least one
terminator character (later terminators of the same fragment do not produce
further sentences), plus one trailing sentence when a non-empty stripped
residual remains at end-of-stream; the emitted indices are 0..(count-1)
with no gaps. -/
theorem C1_amended_one_sentence_per_fragment (frags : List (List Char)) :
    (sentenceTexts (generate frags none)).length =
      frags.countP (fun f => !f.isEmpty && f.any isTerminator) +
        (if (pyStrip (runFragments initState frags).1.cur).isEmpty then 0 else 1) ∧
    sentenceIndices (generate frags none) =
      List.range (sentenceTexts (generate frags none)).length := by
  have hlen := length_texts_eq_length_indices (generate frags none)
  constructor
  · obtain ⟨k, hc, hi⟩ := runFragments_indices frags initState
    have hct := runFragments_count_terms frags initState
    have hz : initState.count = 0 := rfl
    rw [hz] at hc hct hi
    rw [Nat.zero_add] at hc hct
    have hk : k = frags.countP (fun f => !f.isEmpty && f.any isTerminator) := by
      omega
    have h1 : (sentenceTexts (runFragments initState frags).2).length = k := by
      rw [length_texts_eq_length_indices, hi]
      simp
    rw [generate_none_eq, sentenceTexts_append, sentenceTexts_append]
    have hcmpl : sentenceTexts
        [Event.complete (pyStrip (runFragments initState frags).1.full)] = [] := rfl
    rw [hcmpl, List.append_nil]
    cases ht : (pyStrip (runFragments initState frags).1.cur).isEmpty with
    | true =>
      simp only [ht, if_true]
      have hnil : sentenceTexts ([] : List Event) = [] := rfl
      rw [hnil, List.append_nil, h1, hk]
      simp
    | false =>
      simp only [ht, Bool.false_eq_true, if_false]
      have hone : sentenceTexts
          [Event.sentence (runFragments initState frags).1.count
            (pyStrip (runFragments initState frags).1.cur)] =
          [pyStrip (runFragments initState frags).1.cur] := rfl
      rw [hone, List.length_append, h1, hk]
      simp
  · rw [hlen]
    exact generate_indices frags none

/-- Claim C2, counterexample: on the fragment "Hi. Bye" the emitted
sentence is the whole buffer "Hi. Bye", not the cut "Hi.", and the
remainder "Bye" is not retained for a further sentence. -/
theorem C2_counterexample :
    generate ["Hi. Bye".toList] none =
      [Event.sentence 0 "Hi. Bye".toList, Event.complete "Hi. Bye".toList] ∧
    "Hi. Bye".toList ≠ "Hi.".toList := by
  decide

/-- Claim C2 (amended): when the newly appended text of a non-empty
fragment contains a terminator, the segmenter emits the ENTIRE stripped
buffer — including any characters after the terminator — as the next
sentence, and resets the buffer to empty (nothing is retained). -/
theorem C2_amended_emit_whole_buffer (st : GenState) (text : List Char)
    (h1 : text.isEmpty = false) (h2 : text.any isTerminator = true) :
    processFragment st text =
      ({ cur := [], full := st.full ++ text, count := st.count + 1 },
       [Event.sentence st.count (pyStrip (st.cur ++ text))]) :=
  processFragment_emit st h1 h2

/-- Witness for the amended claim C2 at a concrete input. -/
theorem C2_amended_emit_whole_buffer_witness :
    processFragment initState "Hi. Bye".toList =
      ({ cur := [], full := [] ++ "Hi. Bye".toList, count := 0 + 1 },
       [Event.sentence 0 (pyStrip ([] ++ "Hi. Bye".toList))]) :=
  C2_amended_emit_whole_buffer initState "Hi. Bye".toList (by decide) (by decide)

/-- Claim C3, counterexample: when the token source raises before any
fragment is delivered, the streaming pipeline emits exactly one error
event carrying the exception message — an error event IS emitted and no
fallback sentence/complete pair is fabricated. -/
theorem C3_counterexample :
    generate [] (some "Timeout".toList) = [Event.error "Timeout".toList] ∧
    (generate [] (some "Timeout".toList)).any isErrorEv = true ∧
    (generate [] (some "Timeout".toList)).any isSentenceEv = false := by
  decide

/-- Claim C3 (amended): whenever the token source fails before any sentence
has been emitted — whether it raises before delivering any fragment or
after delivering only fragments that produced no sentence event — the
streaming pipeline's outbound sequence is exactly one error event carrying
the failure message; the fallback commentary masking exists only in the
non-streaming endpoint. -/
theorem C3_amended_error_not_masked (frags : List (List Char)) (m : List Char)
    (h : (runFragments initState frags).2 = []) :
    generate frags (some m) = [Event.error m] := by
  rw [generate_some_eq, h, List.nil_append]

/-- Witness for the amended claim C3 at a concrete input: the terminator-free
fragment "Good" is delivered, then the token source fails. -/
theorem C3_amended_error_not_masked_witness :
    generate ["Good".toList] (some "boom".toList) = [Event.error "boom".toList] :=
  C3_amended_error_not_masked ["Good".toList] "boom".toList (by decide)

/-- Claim C4: every terminated invocation of the streaming pipeline emits
exactly one terminal event (complete or error) and it is the last event of
the sequence; every earlier event is a non-terminal sentence event. -/
theorem C4_single_terminal_event (frags : List (List Char))
    (fail : Option (List Char)) :
    ∃ evs t, generate frags fail = evs ++ [t] ∧ isTerminalEv t = true ∧
      ∀ e ∈ evs, isTerminalEv e = false := by
  have hsent : ∀ e ∈ (runFragments initState frags).2, isTerminalEv e = false := by
    intro e he
    have h := runFragments_sentences_only frags initState e he
    cases e with
    | sentence i t => rfl
    | complete f => simp [isSentenceEv] at h
    | error m => simp [isSentenceEv] at h
  cases fail with
  | some m =>
    exact ⟨_, Event.error m, generate_some_eq frags m, rfl, hsent⟩
  | none =>
    refine ⟨(runFragments initState frags).2 ++
        (if (pyStrip (runFragments initState frags).1.cur).isEmpty then []
         else [Event.sentence (runFragments initState frags).1.count
                (pyStrip (runFragments initState frags).1.cur)]),
      Event.complete (pyStrip (runFragments initState frags).1.full), ?_, rfl, ?_⟩
    · rw [generate_none_eq]
    · intro e he
      rcases List.mem_append.mp he with he | he
      · exact hsent e he
      · cases hcur : (pyStrip (runFragments initState frags).1.cur).isEmpty with
        | true =>
          rw [hcur] at he
          simp at he
        | false =>
          rw [hcur] at he
          simp at he
          subst he
          rfl

/-- Claim C5: within one invocation the indices of the emitted sentence
events are contiguous starting at 0 — the list of indices equals
`range count` — for every fragment sequence and every termination mode. -/
theorem C5_contiguous_indices (frags : List (List Char))
    (fail : Option (List Char)) :
    sentenceIndices (generate frags fail) =
      List.range (sentenceIndices (generate frags fail)).length :=
  generate_indices frags fail

/-- Claim C6: for every fragment sequence consumed to normal end-of-stream,
re-inserting per-sentence leading/trailing whitespace pads into the emitted
sentence texts reconstructs the concatenation of all input fragments, up to
one trailing all-whitespace residue — no characters are lost or duplicated
by segmentation. -/
theorem C6_text_conservation (frags : List (List Char)) :
    ∃ pads ws, pads.length = (sentenceTexts (generate frags none)).length ∧
      (∀ p ∈ pads, p.1.all isPySpace = true ∧ p.2.all isPySpace = true) ∧
      ws.all isPySpace = true ∧
      List.flatten frags =
        padJoin pads (sentenceTexts (generate frags none)) ++ ws := by
  obtain ⟨pads, hlen, hws, heq⟩ := runFragments_conservation frags initState
  have hcur0 : initState.cur = [] := rfl
  rw [hcur0, List.nil_append] at heq
  rw [generate_none_eq, sentenceTexts_append, sentenceTexts_append]
  have hcmpl : sentenceTexts
      [Event.complete (pyStrip (runFragments initState frags).1.full)] = [] := rfl
  rw [hcmpl, List.append_nil]
  cases ht : (pyStrip (runFragments initState frags).1.cur).isEmpty with
  | true =>
    simp only [ht, if_true]
    have hnil : sentenceTexts ([] : List Event) = [] := rfl
    rw [hnil, List.append_nil]
    exact ⟨pads, (runFragments initState frags).1.cur, hlen, hws,
      all_space_of_pyStrip_empty ht, heq⟩
  | false =>
    simp only [ht, Bool.false_eq_true, if_false]
    have hone : sentenceTexts
        [Event.sentence (runFragments initState frags).1.count
          (pyStrip (runFragments initState frags).1.cur)] =
        [pyStrip (runFragments initState frags).1.cur] := rfl
    rw [hone]
    obtain ⟨pre, post, hpre, hpost, hdecomp⟩ :=
      pyStrip_decomp (runFragments initState frags).1.cur
    refine ⟨pads ++ [(pre, post)], [], ?_, ?_, rfl, ?_⟩
    · simp [hlen]
    · intro p hp
      rcases List.mem_append.mp hp with h | h
      · exact hws p h
      · simp at h
        rw [h]
        exact ⟨hpre, hpost⟩
    · rw [padJoin_append pads [(pre, post)] _ _ hlen, heq]
      conv_lhs => rw [hdecomp]
      simp [padJoin, List.append_assoc]

/-- Claim C7, counterexample: when the token source fails after the
sentence "Good." was emitted, the error event carries the exception message
"boom", not the already-emitted partial text — so "an error event carrying
the already-emitted partial text" fails as stated. -/
theorem C7_counterexample :
    generate ["Good.".toList] (some "boom".toList) =
      [Event.sentence 0 "Good.".toList, Event.error "boom".toList] ∧
    "boom".toList ≠ "Good.".toList := by
  decide

/-- Claim C7 (amended): when the token source fails after partial content,
the pipeline appends exactly one error event carrying the exception
message; the sentence events already emitted are unchanged and are not
re-emitted, and no complete event is fabricated. -/
theorem C7_amended_error_after_partial (frags : List (List Char)) (m : List Char) :
    generate frags (some m) = (runFragments initState frags).2 ++ [Event.error m] ∧
    (∀ e ∈ (runFragments initState frags).2, isSentenceEv e = true) ∧
    ∀ e ∈ generate frags (some m), isCompleteEv e = false := by
  refine ⟨rfl, runFragments_sentences_only frags initState, ?_⟩
  intro e he
  rw [generate_some_eq] at he
  rcases List.mem_append.mp he with he | he
  · have h := runFragments_sentences_only frags initState e he
    cases e with
    | sentence i t => rfl
    | complete f => simp [isSentenceEv] at h
    | error msg => simp [isSentenceEv] at h
  · simp at he
    subst he
    rfl

/-! ### Facts about the non-streaming handler -/

theorem pmProcessFragment_full (acc : List (List Char) × List Char × List Char)
    (f : List Char) : (pmProcessFragment acc f).2.2 = acc.2.2 ++ f := by
  cases h1 : f.isEmpty with
  | true =>
    have hf : f = [] := List.isEmpty_iff.mp h1
    simp [pmProcessFragment, hf]
  | false =>
    cases h2 : f.any isTerminator with
    | true => simp only [pmProcessFragment, h1, h2, Bool.false_eq_true, if_false, if_true]
    | false => simp only [pmProcessFragment, h1, h2, Bool.false_eq_true, if_false]

theorem pmSegment_full (frags : List (List Char)) :
    (pmSegment frags).2.2 = List.flatten frags := by
  suffices h : ∀ acc, (frags.foldl pmProcessFragment acc).2.2 =
      acc.2.2 ++ List.flatten frags by
    simpa [pmSegment] using h ([], [], [])
  induction frags with
  | nil =>
    intro acc
    simp
  | cons f fs ih =>
    intro acc
    rw [List.foldl_cons, List.flatten_cons, ih (pmProcessFragment acc f),
      pmProcessFragment_full]
    simp [List.append_assoc]

theorem generate_tts_fst (c : Bool) (out : SynthOutcome) (i : Nat) :
    (generate_tts_for_sentence c out i).1 = i := by
  cases c <;> cases out <;> rfl

theorem generate_tts_raises (c : Bool) (i : Nat) :
    generate_tts_for_sentence c SynthOutcome.raises i = (i, none) := by
  cases c <;> rfl

theorem tts_filter_agree (c : Bool) (o o' : Nat → SynthOutcome) (j : Nat)
    (hagree : ∀ i, i ≠ j → o' i = o i) :
    ∀ L : List (Nat × List Char),
      (L.map fun p => generate_tts_for_sentence c (o p.1) p.1).filter
          (fun p => p.1 != j) =
        (L.map fun p => generate_tts_for_sentence c (o' p.1) p.1).filter
          (fun p => p.1 != j) := by
  intro L
  induction L with
  | nil => rfl
  | cons q L ih =>
    simp only [List.map_cons, List.filter_cons, generate_tts_fst]
    by_cases hq : q.1 = j
    · simp [hq, ih]
    · rw [hagree q.1 hq]
      simp [hq, ih]

/-- Claim C8: a synthesis collaborator exception for one dispatched
sentence is absorbed locally: that sentence's result has absent audio, the
results for all indices other than the failing one are the same as they
would be had that sentence not failed, and the returned commentary text is
the stripped concatenation of all fragments regardless of any synthesis
outcome. -/
theorem C8_synthesis_failure_isolated (conf : Bool) (o o' : Nat → SynthOutcome)
    (frags : List (List Char)) (j : Nat)
    (hj : o j = SynthOutcome.raises)
    (hagree : ∀ i, i ≠ j → o' i = o i) :
    (∀ p ∈ ttsResults conf o (pmSentences frags), p.1 = j → p.2 = none) ∧
    (ttsResults conf o (pmSentences frags)).filter (fun p => p.1 != j) =
      (ttsResults conf o' (pmSentences frags)).filter (fun p => p.1 != j) ∧
    (process_move conf o frags).commentary = pyStrip (List.flatten frags) := by
  refine ⟨?_, tts_filter_agree conf o o' j hagree _, ?_⟩
  · intro p hp hpj
    obtain ⟨q, hqmem, hgq⟩ := List.mem_map.mp hp
    have hq1 : q.1 = j := by
      rw [← hgq, generate_tts_fst] at hpj
      exact hpj
    rw [← hgq, hq1, hj, generate_tts_raises]
  · show pyStrip (pmSegment frags).2.2 = pyStrip (List.flatten frags)
    rw [pmSegment_full]

/-- Witness for claim C8 at a concrete input: two sentences, synthesis
raising for index 0 and succeeding for index 1. -/
theorem C8_synthesis_failure_isolated_witness :
    (∀ p ∈ ttsResults true
        (fun i => if i = 0 then SynthOutcome.raises
                  else SynthOutcome.success "u".toList)
        (pmSentences ["A.".toList, " B.".toList]), p.1 = 0 → p.2 = none) ∧
    (ttsResults true
        (fun i => if i = 0 then SynthOutcome.raises
                  else SynthOutcome.success "u".toList)
        (pmSentences ["A.".toList, " B.".toList])).filter (fun p => p.1 != 0) =
      (ttsResults true (fun _ => SynthOutcome.success "u".toList)
        (pmSentences ["A.".toList, " B.".toList])).filter (fun p => p.1 != 0) ∧
    (process_move true
        (fun i => if i = 0 then SynthOutcome.raises
                  else SynthOutcome.success "u".toList)
        ["A.".toList, " B.".toList]).commentary =
      pyStrip (List.flatten ["A.".toList, " B.".toList]) :=
  C8_synthesis_failure_isolated true
    (fun i => if i = 0 then SynthOutcome.raises
              else SynthOutcome.success "u".toList)
    (fun _ => SynthOutcome.success "u".toList)
    ["A.".toList, " B.".toList] 0 (by decide) (fun i hi => by simp [hi])

theorem mem_insertByIdx (x a : Nat × Option (List Char)) :
    ∀ l, a ∈ insertByIdx x l ↔ a = x ∨ a ∈ l := by
  intro l
  induction l with
  | nil => simp [insertByIdx]
  | cons y ys ih =>
    simp only [insertByIdx]
    split
    · simp [List.mem_cons]
    · simp only [List.mem_cons, ih]
      tauto

theorem mem_sortByIdx (l : List (Nat × Option (List Char)))
    (a : Nat × Option (List Char)) : a ∈ sortByIdx l ↔ a ∈ l := by
  suffices h : ∀ acc, a ∈ l.foldl (fun acc x => insertByIdx x acc) acc ↔
      a ∈ acc ∨ a ∈ l by
    simpa [sortByIdx] using h []
  induction l with
  | nil =>
    intro acc
    simp
  | cons x xs ih =>
    intro acc
    rw [List.foldl_cons, ih (insertByIdx x acc)]
    simp only [mem_insertByIdx, List.mem_cons]
    tauto

theorem filterMap_truthy (l : List (Nat × Option (List Char)))
    (h : ∀ p ∈ l, p.2 ≠ some ([] : List Char)) :
    (l.filterMap fun p => match p.2 with
      | some u => if u.isEmpty then none else some u
      | none => none) = l.filterMap Prod.snd := by
  induction l with
  | nil => rfl
  | cons p ps ih =>
    rw [List.filterMap_cons, List.filterMap_cons]
    have hp := h p (List.mem_cons_self p ps)
    have ihp := ih fun q hq => h q (List.mem_cons_of_mem p hq)
    cases hsnd : p.2 with
    | none =>
      simp only [hsnd]
      exact ihp
    | some u =>
      have hu : u.isEmpty = false := by
        cases hu : u.isEmpty with
        | false => rfl
        | true =>
          exfalso
          apply hp
          rw [hsnd, List.isEmpty_iff.mp hu]
      simp only [hsnd, hu, Bool.false_eq_true, if_false]
      rw [ihp]

/-- Claim C10: the non-streaming response's audio fields silently drop
absent synthesis results with no placeholder: `audioUrl` is the head of the
index-ordered successful URLs (`none` when every synthesis was absent), and
`audioUrls` is that list exactly when it has at least two elements and
`none` otherwise.  (Hypothesis: no successful synthesis returns the empty
string, which Python's truthiness test would also drop.) -/
theorem C10_audio_fields_drop_absent (conf : Bool) (o : Nat → SynthOutcome)
    (frags : List (List Char))
    (hne : ∀ p ∈ ttsResults conf o (pmSentences frags),
      p.2 ≠ some ([] : List Char)) :
    (process_move conf o frags).audioUrl =
      (successUrls (ttsResults conf o (pmSentences frags))).head? ∧
    (process_move conf o frags).audioUrls =
      (if 2 ≤ (successUrls (ttsResults conf o (pmSentences frags))).length
       then some (successUrls (ttsResults conf o (pmSentences frags)))
       else none) := by
  have hne' : ∀ p ∈ sortByIdx (ttsResults conf o (pmSentences frags)),
      p.2 ≠ some ([] : List Char) := by
    intro p hp
    exact hne p ((mem_sortByIdx _ p).mp hp)
  have hurls := filterMap_truthy _ hne'
  constructor
  · show (buildAudio (ttsResults conf o (pmSentences frags))).1 = _
    simp only [buildAudio]
    rw [hurls]
    rfl
  · show (buildAudio (ttsResults conf o (pmSentences frags))).2 = _
    simp only [buildAudio]
    rw [hurls]
    rfl

/-- Witness for claim C10 at a concrete input: synthesis fails for sentence
0 and succeeds for sentence 1, so the sole successful URL becomes
`audioUrl` and `audioUrls` stays `none`. -/
theorem C10_audio_fields_drop_absent_witness :
    (process_move true
        (fun i => if i = 0 then SynthOutcome.raises
                  else SynthOutcome.success "u".toList)
        ["Hm.".toList, " Bad.".toList]).audioUrl =
      (successUrls (ttsResults true
        (fun i => if i = 0 then SynthOutcome.raises
                  else SynthOutcome.success "u".toList)
        (pmSentences ["Hm.".toList, " Bad.".toList]))).head? ∧
    (process_move true
        (fun i => if i = 0 then SynthOutcome.raises
                  else SynthOutcome.success "u".toList)
        ["Hm.".toList, " Bad.".toList]).audioUrls =
      (if 2 ≤ (successUrls (ttsResults true
          (fun i => if i = 0 then SynthOutcome.raises
                    else SynthOutcome.success "u".toList)
          (pmSentences ["Hm.".toList, " Bad.".toList]))).length
       then some (successUrls (ttsResults true
          (fun i => if i = 0 then SynthOutcome.raises
                    else SynthOutcome.success "u".toList)
          (pmSentences ["Hm.".toList, " Bad.".toList])))
       else none) :=
  C10_audio_fields_drop_absent true
    (fun i => if i = 0 then SynthOutcome.raises
              else SynthOutcome.success "u".toList)
    ["Hm.".toList, " Bad.".toList] (by decide)

end Chessnuts
